import Mathlib

/-
Verification of the Pitsweeper propositional-logic core:
a shallow embedding of maze_clause.py, maze_knowledge_base.py and
maze_agent.py (Homework 1), with theorems settling the specified
properties of clauses, the resolution knowledge base, and the agent loop.

Python dicts are embedded as association lists in insertion order; Python
sets of clauses are embedded as duplicate-free lists (a set probe hashes
first: MazeClause.__hash__ feeds (frozenset(props.items()), valid) to
hash, and string hashing is randomized per process, so two clauses land in
the same bucket exactly when those hash inputs coincide, in which case
__eq__ also holds; set membership therefore coincides with equality of the
hash inputs).  Machine integers are embedded as Int (no overflow concerns
in this domain); the Python floats arising here are exact half-integers
and are embedded as twice their value in Int, which preserves every
comparison performed on them.
-/

/-- A maze proposition: a (symbol, location) pair such as ("P", (1, 1)). -/
abbrev PropT := String × (Int × Int)

/-- A maze location (column, row). -/
abbrev Loc := Int × Int

/-- Python dict lookup on an association list kept in insertion order. -/
def lookupProp (p : PropT) : List (PropT × Bool) → Option Bool
  | [] => none
  | kv :: t => if kv.1 = p then some kv.2 else lookupProp p t

/-- Python `del d[p]` on an association list; keys are unique in a dict, so
    removing every entry with the key agrees with removing the one entry. -/
def eraseKey (p : PropT) : List (PropT × Bool) → List (PropT × Bool)
  | [] => []
  | kv :: t => if kv.1 = p then eraseKey p t else kv :: eraseKey p t

/-- MazeClause (maze_clause.py): a dict from propositions to polarity plus
    the tautology flag `valid`. -/
structure MazeClause where
  props : List (PropT × Bool)
  valid : Bool
deriving DecidableEq

/-- One iteration of the constructor loop of MazeClause.__init__
    (maze_clause.py lines 44-54): a fresh proposition is appended, a
    repeated equal one is ignored, and a conflicting one deletes the stored
    entry and flags the clause as valid (a tautology). -/
def insStep (s : List (PropT × Bool) × Bool) (pv : PropT × Bool) :
    List (PropT × Bool) × Bool :=
  match lookupProp pv.1 s.1 with
  | none => (s.1 ++ [pv], s.2)
  | some w => if w = pv.2 then s else (eraseKey pv.1 s.1, true)

/-- MazeClause.__init__ (maze_clause.py lines 11-54): fold the supplied
    signed propositions through the constructor loop. -/
def mkMazeClause (l : List (PropT × Bool)) : MazeClause :=
  ⟨(l.foldl insStep ([], false)).1, (l.foldl insStep ([], false)).2⟩

/-- MazeClause.get_prop (maze_clause.py lines 56-66). -/
def MazeClause.get_prop (c : MazeClause) (p : PropT) : Option Bool :=
  lookupProp p c.props

/-- The key list of a clause dict (what iterating the dict yields). -/
def keysOf (l : List (PropT × Bool)) : List PropT := l.map (fun kv => kv.1)

/-- MazeClause.__eq__ (maze_clause.py line 107).  The code compares
    `frozenset(self.props)` with `frozenset(other.props)`: iterating a dict
    yields its KEYS, so this compares the proposition key sets (ignoring
    polarities) together with the valid flags. -/
def mcEq (a b : MazeClause) : Bool :=
  ((keysOf a.props).all (fun k => decide (k ∈ keysOf b.props)) &&
    (keysOf b.props).all (fun k => decide (k ∈ keysOf a.props))) &&
  (a.valid == b.valid)

/-- Equality of the data fed to hash() by MazeClause.__hash__
    (maze_clause.py line 117): the pair (frozenset(props.items()), valid),
    compared as a set of (proposition, polarity) pairs plus the flag. -/
def hashKeyEq (a b : MazeClause) : Bool :=
  (a.props.all (fun kv => decide (kv ∈ b.props)) &&
    b.props.all (fun kv => decide (kv ∈ a.props))) &&
  (a.valid == b.valid)

/-- Membership of a clause in a Python set of clauses: the probe first
    locates a bucket through the hash input (distinct hash inputs never
    share a bucket under randomized string hashing), then checks __eq__,
    which is implied by equality of the hash inputs. -/
def memClause (c : MazeClause) (s : List MazeClause) : Bool :=
  s.any (hashKeyEq c)

/-- Python set.add on a clause set. -/
def addClause (s : List MazeClause) (c : MazeClause) : List MazeClause :=
  if memClause c s then s else s ++ [c]

/-- The clause value returned by MazeClause.invert (maze_clause.py lines
    215-230): every polarity flipped, valid flag untouched. -/
def MazeClause.invert (c : MazeClause) : MazeClause :=
  ⟨c.props.map (fun kv => (kv.1, !kv.2)), c.valid⟩

/-- MazeClause.invert observed as a call on a mutable receiver.  Line 224
    (`inverse_query = self`) aliases the receiver rather than copying it,
    and lines 226-228 flip each polarity in place through that alias, so
    the call returns the flipped clause and leaves the receiver itself in
    that same flipped state.  Modelled as (returned value, receiver state
    after the call). -/
def invertCall (c : MazeClause) : MazeClause × MazeClause :=
  (c.invert, c.invert)

/-- The polarities supplied to the constructor for one fixed proposition,
    in order of appearance. -/
def valuesOf (p : PropT) (l : List (PropT × Bool)) : List Bool :=
  l.filterMap (fun kv => if kv.1 = p then some kv.2 else none)

/-- The dict entry automaton of a single proposition under the constructor
    loop: absent, then stored, then deleted again on a conflict. -/
def runState (s : Option Bool) : List Bool → Option Bool
  | [] => s
  | v :: t =>
    match s with
    | none => runState (some v) t
    | some w => if w = v then runState (some w) t else runState none t

/-- Whether the constructor loop ever hits a polarity conflict for a fixed
    proposition (each conflict sets the valid flag, which is never reset). -/
def runConf (s : Option Bool) : List Bool → Bool
  | [] => false
  | v :: t =>
    match s with
    | none => runConf (some v) t
    | some w => if w = v then runConf (some w) t else true

/-- The propositions shared by two clauses with conflicting polarities
    (the disagreed_props loop of MazeClause.resolve, maze_clause.py lines
    182-197; the early exit on a second disagreement returns the same
    answer as counting them all). -/
def disagreedProps (c1 c2 : MazeClause) : List PropT :=
  c1.props.filterMap (fun kv =>
    match lookupProp kv.1 c2.props with
    | none => none
    | some w => if kv.2 = w then none else some kv.1)

/-- Python dict.copy followed by dict.update (maze_clause.py lines
    205-206): the keys of l1 in their original order with values overridden
    by l2 where shared, followed by the keys appearing only in l2. -/
def dictUpdate (l1 l2 : List (PropT × Bool)) : List (PropT × Bool) :=
  l1.map (fun kv => (kv.1, (lookupProp kv.1 l2).getD kv.2)) ++
  l2.filter (fun kv => (lookupProp kv.1 l1).isNone)

/-- MazeClause.resolve (maze_clause.py lines 158-212): a list of zero or
    one resolvents; the clauses resolve only when exactly one shared
    proposition conflicts, and the resolvent drops that proposition from
    the merged dict and is rebuilt through the constructor. -/
def resolve (c1 c2 : MazeClause) : List MazeClause :=
  match disagreedProps c1 c2 with
  | [d] => [mkMazeClause (eraseKey d (dictUpdate c1.props c2.props))]
  | _ => []

/-- One pass of the while-loop of MazeKnowledgeBase.filter_clauses
    (maze_knowledge_base.py lines 95-126): scan the remaining clauses in
    order; a clause mentioning a helpful location is moved to the necessary
    set and its own locations become helpful immediately (they influence
    the clauses examined later in the same pass).  Returns the grown
    helpful set, the untouched clauses and the newly added clauses. -/
def filterPass (helpful : List PropT) :
    List MazeClause → List PropT × List MazeClause × List MazeClause
  | [] => (helpful, [], [])
  | c :: rest =>
    if c.props.any (fun kv => decide (kv.1 ∈ helpful)) then
      let h2 := helpful ++ (keysOf c.props).filter (fun k => !(decide (k ∈ helpful)))
      let r := filterPass h2 rest
      (r.1, r.2.1, c :: r.2.2)
    else
      let r := filterPass helpful rest
      (r.1, c :: r.2.1, r.2.2)

/-- The outer while-loop of filter_clauses: repeat passes until one adds
    nothing.  Every productive pass removes at least one clause from the
    remaining pool, so fuel (initial pool length + 1) is never exhausted. -/
def filterLoop : Nat → List PropT → List MazeClause → List MazeClause → List MazeClause
  | 0, _, _, nec => nec
  | n + 1, helpful, potential, nec =>
    let r := filterPass helpful potential
    if r.2.2.isEmpty then nec
    else filterLoop n r.1 r.2.1 (nec ++ r.2.2)

/-- MazeKnowledgeBase.filter_clauses (maze_knowledge_base.py lines 81-129):
    the reachability closure of the stored clauses from the propositions of
    the query. -/
def filter_clauses (kb : List MazeClause) (query : MazeClause) : List MazeClause :=
  filterLoop (kb.length + 1) (keysOf query.props) kb []

/-- The resolvents of every unordered pair of clauses, as produced by one
    itertools.combinations pass of ask (maze_knowledge_base.py lines 62-71). -/
def pairResolvents : List MazeClause → List MazeClause
  | [] => []
  | c :: rest => rest.flatMap (resolve c) ++ pairResolvents rest

/-- MazeClause.is_empty (maze_clause.py lines 79-89), which is what the
    membership test of MazeClause([]) in a resolvent set amounts to. -/
def isEmptyClause (c : MazeClause) : Bool := c.props.isEmpty && !c.valid

/-- The while-loop of MazeKnowledgeBase.ask (maze_knowledge_base.py lines
    60-79): new_clauses persists across passes; a pass producing the empty
    clause proves the contradiction, a pass whose discoveries are already
    known ends the search.  The fuel only bounds the unbounded Python loop:
    none is returned solely on fuel exhaustion, so a some answer is the
    answer the Python loop returns. -/
def askLoop : Nat → List MazeClause → List MazeClause → Option Bool
  | 0, _, _ => none
  | n + 1, clauses, newClauses =>
    let rs := pairResolvents clauses
    if rs.any isEmptyClause then some true
    else
      let nc := rs.foldl addClause newClauses
      if nc.all (fun c => memClause c clauses) then some false
      else askLoop n (nc.foldl addClause clauses) nc

/-- MazeKnowledgeBase.ask (maze_knowledge_base.py lines 37-79): filter the
    stored clauses by relevance, add the inverted query, and saturate. -/
def ask (kb : List MazeClause) (query : MazeClause) (fuel : Nat) : Option Bool :=
  askLoop fuel (addClause (filter_clauses kb query) query.invert) []

/-- MazeKnowledgeBase.tell (maze_knowledge_base.py lines 23-35). -/
def tell (kb : List MazeClause) (c : MazeClause) : List MazeClause :=
  addClause kb c

/-- Truth of a clause under a valuation of the propositions: a tautology is
    true outright, otherwise some stored literal must hold. -/
def clauseTrue (v : PropT → Bool) (c : MazeClause) : Prop :=
  c.valid = true ∨ ∃ kv ∈ c.props, v kv.1 = kv.2

/-- Semantic entailment of a query clause by a clause set. -/
def Entails (kb : List MazeClause) (q : MazeClause) : Prop :=
  ∀ v : PropT → Bool, (∀ c ∈ kb, clauseTrue v c) → clauseTrue v q

/-- Python set.add on a location set (iteration order modelled as insertion
    order). -/
def insertLoc (l : List Loc) (x : Loc) : List Loc :=
  if x ∈ l then l else l ++ [x]

/-- Python set union known_pits | known_safe, modelled with left-to-right
    iteration order (the iteration order of a Python set is unspecified;
    every use below involves at most one location, so the order is
    immaterial). -/
def locUnion (a b : List Loc) : List Loc :=
  (a ++ b).foldl insertLoc []

/-- The scan loop of MazeKnowledgeBase.get_simplified_clauses
    (maze_knowledge_base.py lines 227-233): unit clauses are skipped; the
    FIRST clause containing the known literal with matching polarity stops
    the whole scan (the break on line 232) and is marked for removal; every
    other multi-proposition clause contributes its resolvent against the
    unit fact.  Returns (to_add, to_rem). -/
def simpScan (sani : MazeClause) (loc : Loc) (is_pit : Bool) :
    List MazeClause → List MazeClause × List MazeClause
  | [] => ([], [])
  | c :: rest =>
    if c.props.length = 1 then simpScan sani loc is_pit rest
    else if c.get_prop ("P", loc) = some is_pit then ([], [c])
    else
      let r := simpScan sani loc is_pit rest
      (resolve c sani ++ r.1, r.2)

/-- MazeKnowledgeBase.get_simplified_clauses (maze_knowledge_base.py lines
    204-237): union the collected resolvents into the clause set, then
    remove the clauses marked for removal. -/
def get_simplified_clauses (clauses : List MazeClause) (loc : Loc) (is_pit : Bool) :
    List MazeClause :=
  let sani := mkMazeClause [((("P", loc) : PropT), is_pit)]
  let r := simpScan sani loc is_pit clauses
  (r.1.foldl addClause clauses).filter (fun c => !(r.2.any (hashKeyEq c)))

/-- MazeKnowledgeBase.simplify_from_known_locs (maze_knowledge_base.py
    lines 180-202): fold the per-location simplification over the union of
    the known locations. -/
def simplify_from_known_locs (clauses : List MazeClause)
    (known_pits known_safe : List Loc) : List MazeClause :=
  (locUnion known_pits known_safe).foldl
    (fun cs loc => get_simplified_clauses cs loc (decide (loc ∈ known_pits))) clauses

/-- Modelled from the spec: the tile taxonomy of section 6 (safe,
    warning-severity-0..4, hazard).  The constants module of this homework
    is not under src/; the symbol Constants.PIT_BLOCK is modelled as "P",
    matching the literal "P" hardcoded in
    MazeKnowledgeBase.get_simplified_clauses (maze_knowledge_base.py line
    226), without which the agent clauses and the simplifier would not
    interoperate. -/
inductive Tile
  | safe | wrn0 | wrn1 | wrn2 | wrn3 | wrn4 | pit
deriving DecidableEq

/-- Modelled from the spec: Constants.WRN_BLOCKS, the warning tiles
    dispatched to on_warning_tile.  Whether warning-0 is a member is
    unobservable: on_warning_tile has no branch for it and acts as the
    identity on such a perception either way. -/
def wrnBlocks : List Tile := [Tile.wrn1, Tile.wrn2, Tile.wrn3, Tile.wrn4]

/-- The mutable attributes of MazeAgent (maze_agent.py lines 36-54). -/
structure AgentState where
  kb : List MazeClause
  possible_pits : List Loc
  safe_tiles : List Loc
  pit_tiles : List Loc
  goal : Loc
  starting_loc : Loc
deriving DecidableEq

/-- The unit clause asserting no pit at a location. -/
def noPitClause (loc : Loc) : MazeClause :=
  mkMazeClause [((("P", loc) : PropT), false)]

/-- The unit clause asserting a pit at a location. -/
def pitClause (loc : Loc) : MazeClause :=
  mkMazeClause [((("P", loc) : PropT), true)]

/-- MazeKnowledgeBase.simplify_self as invoked on the agent state
    (maze_agent.py line 320). -/
def simplifySelf (s : AgentState) : AgentState :=
  { s with kb := simplify_from_known_locs s.kb s.pit_tiles s.safe_tiles }

/-- The outcome of MazeAgent.is_safe_tile: the classification, the agent
    state after the call, and the queries issued to ask_with_timeout. -/
structure SafeResult where
  result : Option Bool
  state : AgentState
  asked : List MazeClause

/-- MazeAgent.is_safe_tile (maze_agent.py lines 288-346) together with
    ask_with_timeout (lines 348-386).  The bounded-time ask is modelled by
    running ask with a caller-chosen fuel budget: a none answer is the
    process being terminated at the timeout, a some answer is the value the
    finished process put on the result queue.  asked records the queries
    issued, in order. -/
def is_safe_tile (s : AgentState) (loc : Loc) (b1 b2 : Nat) : SafeResult :=
  if loc ∈ s.safe_tiles then ⟨some true, s, []⟩
  else if loc ∈ s.pit_tiles then ⟨some false, s, []⟩
  else
    let s1 := simplifySelf s
    let q1 := noPitClause loc
    match ask s1.kb q1 b1 with
    | some true =>
        ⟨some true,
          { s1 with safe_tiles := insertLoc s1.safe_tiles loc, kb := tell s1.kb q1 },
          [q1]⟩
    | none => ⟨none, { s1 with possible_pits := insertLoc s1.possible_pits loc }, [q1]⟩
    | some false =>
        let q2 := pitClause loc
        match ask s1.kb q2 b2 with
        | some true =>
            ⟨some false,
              { s1 with pit_tiles := insertLoc s1.pit_tiles loc, kb := tell s1.kb q2 },
              [q1, q2]⟩
        | _ => ⟨none, { s1 with possible_pits := insertLoc s1.possible_pits loc }, [q1, q2]⟩

/-- Mark a tile as a known pit and tell the knowledge base (the loop bodies
    of on_warning_tile and infer_adjacent_pits). -/
def markPit (s : AgentState) (t : Loc) : AgentState :=
  { s with pit_tiles := insertLoc s.pit_tiles t, kb := tell s.kb (pitClause t) }

/-- MazeAgent.CNF_to_KB (maze_agent.py lines 402-426).  The caller
    guarantees exactly three tiles; any other shape (which would raise
    IndexError in Python) and any count other than 1 or 2 tells nothing. -/
def CNF_to_KB (kb : List MazeClause) (tiles : List Loc) (possible_pits : Nat) :
    List MazeClause :=
  match tiles, possible_pits with
  | [t0, t1, t2], 2 =>
      let kb := tell kb (mkMazeClause [((("P", t0) : PropT), true), ((("P", t1) : PropT), true)])
      let kb := tell kb (mkMazeClause [((("P", t0) : PropT), true), ((("P", t2) : PropT), true)])
      let kb := tell kb (mkMazeClause [((("P", t1) : PropT), true), ((("P", t2) : PropT), true)])
      tell kb (mkMazeClause [((("P", t0) : PropT), false), ((("P", t1) : PropT), false), ((("P", t2) : PropT), false)])
  | [t0, t1, t2], 1 =>
      let kb := tell kb (mkMazeClause [((("P", t0) : PropT), false), ((("P", t1) : PropT), false)])
      let kb := tell kb (mkMazeClause [((("P", t0) : PropT), false), ((("P", t2) : PropT), false)])
      let kb := tell kb (mkMazeClause [((("P", t1) : PropT), false), ((("P", t2) : PropT), false)])
      tell kb (mkMazeClause [((("P", t0) : PropT), true), ((("P", t1) : PropT), true), ((("P", t2) : PropT), true)])
  | _, _ => kb

/-- The first loop of MazeAgent.infer_adjacent_pits (maze_agent.py lines
    197-203): drop every tile classified definitely safe, threading the
    agent state and the per-call ask budgets. -/
def dropSafeTiles (s : AgentState) (bs : List (Nat × Nat)) :
    List Loc → AgentState × List (Nat × Nat) × List Loc
  | [] => (s, bs, [])
  | t :: rest =>
    let b := bs.headD (0, 0)
    let r := is_safe_tile s t b.1 b.2
    let r2 := dropSafeTiles r.state bs.tail rest
    if r.result = some true then r2 else (r2.1, r2.2.1, t :: r2.2.2)

/-- The second loop of MazeAgent.infer_adjacent_pits (lines 217-224):
    remove exactly one tile classified definitely safe, stopping at the
    first (the break on line 224). -/
def removeOneSafe (s : AgentState) (bs : List (Nat × Nat)) :
    List Loc → AgentState × List (Nat × Nat) × List Loc
  | [] => (s, bs, [])
  | t :: rest =>
    let b := bs.headD (0, 0)
    let r := is_safe_tile s t b.1 b.2
    if r.result = some true then (r.state, bs.tail, rest)
    else
      let r2 := removeOneSafe r.state bs.tail rest
      (r2.1, r2.2.1, t :: r2.2.2)

/-- MazeAgent.infer_adjacent_pits (maze_agent.py lines 184-232). -/
def infer_adjacent_pits (s : AgentState) (adjacent : List Loc) (num_pits : Nat)
    (bs : List (Nat × Nat)) : AgentState × List (Nat × Nat) :=
  let d := dropSafeTiles s bs adjacent
  if d.2.2.length = num_pits then (d.2.2.foldl markPit d.1, d.2.1)
  else
    let r2 := if adjacent.length > 3 then removeOneSafe d.1 d.2.1 adjacent
              else (d.1, d.2.1, adjacent)
    if r2.2.2.length = 3 then
      ({ r2.1 with kb := CNF_to_KB r2.1.kb r2.2.2 num_pits }, r2.2.1)
    else (r2.1, r2.2.1)

/-- MazeAgent.on_warning_tile (maze_agent.py lines 149-182). -/
def on_warning_tile (s : AgentState) (tile : Tile) (adjacent : List Loc)
    (bs : List (Nat × Nat)) : AgentState × List (Nat × Nat) :=
  match tile with
  | Tile.wrn4 => (adjacent.foldl markPit s, bs)
  | Tile.wrn3 =>
      (adjacent.foldl (fun st t => if t ∈ st.safe_tiles then st else markPit st t) s, bs)
  | Tile.wrn2 => infer_adjacent_pits s adjacent 2 bs
  | Tile.wrn1 => infer_adjacent_pits s adjacent 1 bs
  | _ => (s, bs)

/-- A heap entry of find_best_next_move: (priority, tile).  Every Python
    float priority arising here is an exact half-integer (a Manhattan
    distance plus half a Manhattan distance plus integer penalties), so it
    is represented exactly by TWICE its value as an Int; comparing two
    such floats coincides with comparing their doubles, so the encoding is
    faithful to every comparison heapq and the selection loop perform. -/
abbrev HeapEntry := Int × Loc

/-- Python tuple comparison on heap entries: priority first, then the
    location tuple lexicographically. -/
def entryLt (a b : HeapEntry) : Bool :=
  if a.1 < b.1 then true
  else if a.1 = b.1 then
    (if a.2.1 < b.2.1 then true
     else if a.2.1 = b.2.1 then decide (a.2.2 < b.2.2)
     else false)
  else false

/-- The default entry used for out-of-range array reads; CPython heapq
    never reads out of range, so the default is never observed. -/
def dummyEntry : HeapEntry := (0, (0, 0))

/-- The final phase of CPython _siftup: _siftdown(heap, startpos, pos),
    bubbling newitem up toward the root.  The position strictly decreases,
    so fuel heap.size always suffices. -/
def siftdownLoop : Nat → Array HeapEntry → Nat → Nat → HeapEntry → Array HeapEntry
  | 0, heap, _, pos, newitem => heap.setD pos newitem
  | fuel + 1, heap, startpos, pos, newitem =>
    if startpos < pos then
      let parentpos := (pos - 1) / 2
      let parent := heap.getD parentpos dummyEntry
      if entryLt newitem parent then
        siftdownLoop fuel (heap.setD pos parent) startpos parentpos newitem
      else heap.setD pos newitem
    else heap.setD pos newitem

/-- The child-chasing while-loop of CPython _siftup: move the smaller child
    up until reaching a leaf, then place newitem and bubble it back up.
    The position strictly increases, so fuel heap.size always suffices. -/
def siftupLoop : Nat → Array HeapEntry → Nat → Nat → HeapEntry → Array HeapEntry
  | 0, heap, startpos, pos, newitem => siftdownLoop heap.size heap startpos pos newitem
  | fuel + 1, heap, startpos, pos, newitem =>
    let endpos := heap.size
    let childpos := 2 * pos + 1
    if childpos < endpos then
      let rightpos := childpos + 1
      let child :=
        if rightpos < endpos &&
            !(entryLt (heap.getD childpos dummyEntry) (heap.getD rightpos dummyEntry)) then
          rightpos
        else childpos
      siftupLoop fuel (heap.setD pos (heap.getD child dummyEntry)) startpos child newitem
    else siftdownLoop heap.size heap startpos pos newitem

/-- CPython heapq._siftup(heap, pos). -/
def siftup (heap : Array HeapEntry) (pos : Nat) : Array HeapEntry :=
  siftupLoop heap.size heap pos pos (heap.getD pos dummyEntry)

/-- CPython heapq.heapify: _siftup at positions n // 2 - 1 down to 0. -/
def heapifyLoop : Nat → Array HeapEntry → Array HeapEntry
  | 0, heap => heap
  | i + 1, heap => heapifyLoop i (siftup heap i)

/-- CPython heapq.heapify, as invoked on line 276 of maze_agent.py. -/
def heapify (heap : Array HeapEntry) : Array HeapEntry :=
  heapifyLoop (heap.size / 2) heap

/-- The priority assigned to a candidate move (maze_agent.py lines
    257-270): Manhattan distance to the goal plus half the Manhattan
    distance from the current location, plus 4 for a suspected pit and 20
    for a known pit - represented by twice its value (see HeapEntry), so
    move_distance_from_goal + move_cost * 0.5 + 4 + 20 becomes
    2 * dg + dc + 8 + 40. -/
def priorityOf (s : AgentState) (cur m : Loc) : Int :=
  let dg : Int := |s.goal.1 - m.1| + |s.goal.2 - m.2|
  let dc : Int := |cur.1 - m.1| + |cur.2 - m.2|
  let base : Int := 2 * dg + dc
  let p1 : Int := if m ∈ s.possible_pits then base + 8 else base
  if m ∈ s.pit_tiles then p1 + 40 else p1

/-- The selection loop of find_best_next_move (maze_agent.py lines
    279-283): iterate the heapified list in ARRAY order and return the
    first tile classified definitely safe, threading state and budgets. -/
def selectLoop (s : AgentState) (bs : List (Nat × Nat)) :
    List HeapEntry → Option Loc × AgentState × List (Nat × Nat)
  | [] => (none, s, bs)
  | e :: rest =>
    let b := bs.headD (0, 0)
    let r := is_safe_tile s e.2 b.1 b.2
    if r.result = some true then (some e.2, r.state, bs.tail)
    else selectLoop r.state bs.tail rest

/-- MazeAgent.find_best_next_move (maze_agent.py lines 235-286).  The
    frontier set is taken in an explicit iteration order.  The goal is
    returned outright when present (the iterations before it only append
    to the local list).  On an empty frontier Python raises IndexError on
    line 286; the embedding returns the dummy location (0, 0) there. -/
def find_best_next_move (s : AgentState) (possible_moves : List Loc) (cur : Loc)
    (bs : List (Nat × Nat)) : Loc × AgentState × List (Nat × Nat) :=
  if s.goal ∈ possible_moves then (s.goal, s, bs)
  else
    let entries : List HeapEntry := possible_moves.map (fun m => (priorityOf s cur m, m))
    let heaped := heapify (List.toArray entries)
    let sel := selectLoop s bs heaped.toList
    match sel.1 with
    | some m => (m, sel.2.1, sel.2.2)
    | none => ((heaped.getD 0 dummyEntry).2, sel.2.1, sel.2.2)

/-- MazeAgent.think (maze_agent.py lines 96-147).  The environment answers
    (cardinal neighbors of the current location and the frontier) are
    inputs; the perception is (loc, tile). -/
def think (s : AgentState) (loc : Loc) (tile : Tile) (adjacent : List Loc)
    (frontier : List Loc) (bs : List (Nat × Nat)) : Loc × AgentState :=
  let s := { s with kb := tell s.kb (if tile = Tile.pit then pitClause loc else noPitClause loc) }
  let s :=
    if tile = Tile.safe ∨ tile = Tile.wrn0 then
      adjacent.foldl (fun st n =>
        { st with safe_tiles := insertLoc st.safe_tiles n, kb := tell st.kb (noPitClause n) }) s
    else s
  let r := if tile ∈ wrnBlocks then on_warning_tile s tile adjacent bs else (s, bs)
  let f := find_best_next_move r.1 frontier loc r.2
  (f.1, f.2.1)

/-- MazeAgent.__init__ together with add_starting_rules (maze_agent.py
    lines 19-94).  The environment answers (start, goal, the cardinal
    neighbors of the goal and of the start) and the starting perception
    tile are inputs. -/
def mkAgent (start goal : Loc) (goalAdj : List Loc) (tile : Tile)
    (startAdj : List Loc) (bs : List (Nat × Nat)) : AgentState :=
  let s : AgentState := ⟨[], [], [], [], goal, start⟩
  let s := { s with safe_tiles := insertLoc (insertLoc s.safe_tiles start) goal }
  let props : List (PropT × Bool) := goalAdj.map (fun l => ((("P", l) : PropT), false))
  let s := { s with kb := tell s.kb (mkMazeClause props) }
  let s :=
    if props.length = 1 then
      { s with safe_tiles := insertLoc s.safe_tiles (goalAdj.headD (0, 0)) }
    else s
  let s :=
    if tile = Tile.safe ∨ tile = Tile.wrn0 then
      { s with safe_tiles := startAdj.foldl insertLoc s.safe_tiles }
    else s
  if tile ∈ wrnBlocks then (on_warning_tile s tile startAdj bs).1 else s

/-- One observable step of the agent: a think cycle on one perception, or
    a direct safety classification.  The environment answers and the ask
    budgets are chosen arbitrarily at each step. -/
inductive AgentStep : AgentState → AgentState → Prop
  | think_step (s : AgentState) (loc : Loc) (tile : Tile)
      (adjacent frontier : List Loc) (bs : List (Nat × Nat)) :
      AgentStep s (think s loc tile adjacent frontier bs).2
  | classify_step (s : AgentState) (loc : Loc) (b1 b2 : Nat) :
      AgentStep s (is_safe_tile s loc b1 b2).state

/-- Growth ordering on agent states: the confirmed-safe and
    confirmed-hazard sets of the first are contained in those of the
    second. -/
def Mono (a b : AgentState) : Prop :=
  a.safe_tiles ⊆ b.safe_tiles ∧ a.pit_tiles ⊆ b.pit_tiles

/-- The proposition Pit(0, 0). -/
def pA : PropT := ("P", (0, 0))

/-- The proposition Pit(1, 0). -/
def pB : PropT := ("P", (1, 0))

/-- The proposition Pit(2, 0). -/
def pC : PropT := ("P", (2, 0))

/-- Fixture knowledge base {Pit(0,0)}. -/
def kbC1 : List MazeClause := tell [] (mkMazeClause [(pA, true)])

/-- Fixture query Pit(0,0) v Pit(1,0), entailed by kbC1. -/
def qC1 : MazeClause := mkMazeClause [(pA, true), (pB, true)]

/-- The spec fixture {NOT Pit(A) v NOT Pit(B), Pit(A)}. -/
def kbC1pos : List MazeClause :=
  tell (tell [] (mkMazeClause [(pA, false), (pB, false)])) (mkMazeClause [(pA, true)])

/-- The spec fixture query NOT Pit(B). -/
def qC1pos : MazeClause := mkMazeClause [(pB, false)]

/-- Fixture clause Pit(0,0). -/
def aC2 : MazeClause := mkMazeClause [(pA, true)]

/-- Fixture clause NOT Pit(0,0). -/
def bC2 : MazeClause := mkMazeClause [(pA, false)]

/-- Fixture clause Pit(0,0) for the inversion claim. -/
def cC3 : MazeClause := mkMazeClause [(pA, true)]

/-- Fixture clause Pit(0,0) v Pit(1,0) for the simplification claim. -/
def cC4 : MazeClause := mkMazeClause [(pA, true), (pB, true)]

/-- Fixture clause Pit(0,0) v Pit(1,0). -/
def cC5a : MazeClause := mkMazeClause [(pA, true), (pB, true)]

/-- Fixture clause Pit(0,0) v Pit(2,0). -/
def cC5b : MazeClause := mkMazeClause [(pA, true), (pC, true)]

/-- One application of simplify to the idempotence fixture. -/
def onceC5 : List MazeClause := simplify_from_known_locs [cC5a, cC5b] [(0, 0)] []

/-- Constructor input supplying Pit(0,0) as true, false, true. -/
def lC6 : List (PropT × Bool) := [(pA, true), (pA, false), (pA, true)]

/-- An agent constructed on a safe start tile at (0,0) with goal (5,5). -/
def c7s0 : AgentState := mkAgent (0, 0) (5, 5) [(5, 4)] Tile.safe [(0, 1)] []

/-- The state after classifying (3,3), which answers unknown. -/
def c7s1 : AgentState := (is_safe_tile c7s0 (3, 3) 1 1).state

/-- The state after a think step on the safe tile (3,2) adjacent to (3,3). -/
def c7s2 : AgentState := (think c7s1 (3, 2) Tile.safe [(3, 3)] [(5, 5)] []).2

/-- An agent that already confirmed (0,3) and (0,2) safe, with goal (0,0). -/
def c8state : AgentState := ⟨[], [], [(0, 3), (0, 2)], [], (0, 0), (9, 9)⟩

/-- An empty-knowledge agent used for the timeout fixture. -/
def c9state : AgentState := ⟨[], [], [], [], (0, 0), (0, 0)⟩

/-- Fixture clause Pit(1,0) for the hash claim. -/
def aC10 : MazeClause := mkMazeClause [(pB, true)]

/-- Fixture clause NOT Pit(1,0) for the hash claim. -/
def bC10 : MazeClause := mkMazeClause [(pB, false)]

/-- C2 (code bug): the clauses Pit(0,0) and NOT Pit(0,0) compare equal
    under MazeClause.__eq__ although their proposition-to-polarity
    associations differ: frozenset(self.props) on line 107 collects only
    the dict KEYS, so polarities are ignored, contradicting the docstring
    (same props mapped to truth values) and the items-based __hash__. -/
theorem eq_ignores_polarities :
    mcEq aC2 bC2 = true ∧ aC2.get_prop pA = some true ∧ bC2.get_prop pA = some false := by
  decide

/-- C3 (code bug): inverting the clause Pit(0,0) leaves the receiver
    itself flipped to NOT Pit(0,0): line 224 binds an alias instead of a
    copy (despite the comment saying copy), so the call mutates the
    receiver, which the claim forbids. -/
theorem invert_mutates_receiver :
    (invertCall cC3).2 ≠ cC3 ∧ (invertCall cC3).2.get_prop pA = some false := by
  decide

/-- C4 (code bug): simplifying the one-clause set {Pit(0,0) v Pit(1,0)}
    with (0,0) known safe ADDS the resolvent Pit(1,0) while keeping the
    resolved clause (nothing removes it), growing the set from one clause
    to two; the claim (and the condensation example documented on
    simplify_self) requires the count never to increase. -/
theorem get_simplified_clauses_grows :
    (get_simplified_clauses [cC4] (0, 0) false).length = 2 ∧
    memClause cC4 (get_simplified_clauses [cC4] (0, 0) false) = true := by
  decide

/-- C5 (code bug): on {Pit(0,0) v Pit(1,0), Pit(0,0) v Pit(2,0)} with
    (0,0) a known pit, the scan stops at the first matching clause (the
    break on line 232) and removes only it; a second application removes
    the other matching clause, so applying simplify twice with the same
    known-fact sets differs from applying it once. -/
theorem simplify_not_idempotent :
    simplify_from_known_locs onceC5 [(0, 0)] [] ≠ onceC5 := by
  decide

/-- C6 (counterexample): supplying Pit(0,0) as true, false, true flags the
    clause as a tautology, but the third occurrence re-adds the
    proposition after its conflict deleted it: the constructed clause
    still contains Pit(0,0), contrary to the claim that the conflicting
    proposition never occurs in the result. -/
theorem construct_reinserts_conflicting_prop :
    (mkMazeClause lC6).valid = true ∧ (mkMazeClause lC6).get_prop pA = some true := by
  decide

/-- C9 (counterexample): when the first (hazard-free) query times out, the
    second (hazard) query is NOT issued: lines 332-335 put the location
    straight into suspected pits and return, whereas the claim requires
    the second query also on an ambiguous timeout of the first. -/
theorem timeout_skips_second_query :
    (is_safe_tile c9state (3, 3) 0 5).asked = [noPitClause (3, 3)] ∧
    (is_safe_tile c9state (3, 3) 0 5).result = none ∧
    (3, 3) ∈ (is_safe_tile c9state (3, 3) 0 5).state.possible_pits := by
  decide

/-- C10 (code bug): Pit(1,0) and NOT Pit(1,0) are equal under __eq__ (the
    key sets and flags agree) while the inputs fed to hash() differ, so
    their hashes disagree under any per-process string hash separating the
    two item sets; consequently a clause set holds both at once and tell
    is not idempotent under clause equality, breaking the Python
    requirement that equal objects hash equally. -/
theorem hash_inconsistent_with_eq :
    mcEq aC10 bC10 = true ∧ hashKeyEq aC10 bC10 = false ∧
    (addClause (addClause [] aC10) bC10).length = 2 := by
  decide

/-- C1 (code bug): on the knowledge base {Pit(0,0)} and the semantically
    entailed two-literal query Pit(0,0) v Pit(1,0), ask returns False:
    proof by contradiction is seeded with invert(query), a single clause
    with flipped polarities, which for a multi-literal query is a weaker
    disjunction rather than the required conjunction of negated unit
    literals, so the refutation never materializes.  This contradicts the
    ask docstring (True if the KB entails the query, False otherwise).  On
    the single-literal spec fixture the promised True is returned. -/
theorem ask_misses_entailed_query :
    ask kbC1 qC1 10 = some false ∧ Entails kbC1 qC1 ∧
    ask kbC1pos qC1pos 10 = some true := by
  refine ⟨by decide, ?_, by decide⟩
  intro v h
  have h1 := h (mkMazeClause [(pA, true)]) (by decide)
  have hc : mkMazeClause [(pA, true)] = ⟨[(pA, true)], false⟩ := by decide
  have hq : qC1 = ⟨[(pA, true), (pB, true)], false⟩ := by decide
  rw [hc] at h1
  rcases h1 with hv | ⟨kv, hkv, hval⟩
  · exact absurd hv (by simp)
  · right
    rw [hq]
    have hkv2 : kv = (pA, true) := by simpa using hkv
    exact ⟨kv, by simp [hkv2], hval⟩

/-- C8 (code bug): with goal (0,0), current location (2,0) and frontier
    built in the order [(0,3), (1,0), (0,2)] (priorities 5.5, 1.5 and 4,
    doubled to 11, 3 and 8 in the encoding; the goal is not on the
    frontier), the tiles (0,3) and (0,2) are confirmed safe and (1,0)
    classifies as unknown.  The claim requires the safe candidate of
    smallest priority, (0,2); the code iterates the heapified list
    [3, 11, 8] in ARRAY order (a heapified list is not sorted beyond its
    root) and returns (0,3), the safe candidate of LARGER priority,
    contradicting the comment on line 272 that the frontier will be
    sorted smallest to largest. -/
theorem find_best_next_move_heap_order_bug :
    (find_best_next_move c8state [(0, 3), (1, 0), (0, 2)] (2, 0) [(1, 1)]).1 = (0, 3) ∧
    c8state.goal ∉ [((0 : Int), (3 : Int)), (1, 0), (0, 2)] ∧
    (0, 2) ∈ c8state.safe_tiles ∧ (0, 3) ∈ c8state.safe_tiles ∧
    priorityOf c8state (2, 0) (0, 2) < priorityOf c8state (2, 0) (0, 3) := by
  refine ⟨by decide, by decide, by decide, by decide, by decide⟩

/-- C7 (counterexample): a state reachable by construction, then a
    classification of (3,3) answering unknown, then a think step on the
    safe tile (3,2) adjacent to (3,3), holds (3,3) in BOTH the
    suspected-hazard and the confirmed-safe set: confirmation never
    removes a location from possible_pits, so the three location sets are
    not pairwise disjoint. -/
theorem agent_sets_not_pairwise_disjoint :
    Relation.ReflTransGen AgentStep c7s0 c7s2 ∧
    (3, 3) ∈ c7s2.possible_pits ∧ (3, 3) ∈ c7s2.safe_tiles := by
  refine ⟨?_, by decide, by decide⟩
  have h1 : AgentStep c7s0 c7s1 := AgentStep.classify_step c7s0 (3, 3) 1 1
  have h2 : AgentStep c7s1 c7s2 :=
    AgentStep.think_step c7s1 (3, 2) Tile.safe [(3, 3)] [(5, 5)] []
  exact Relation.ReflTransGen.tail (Relation.ReflTransGen.tail Relation.ReflTransGen.refl h1) h2

/-- Appending an entry with a different key does not change a lookup. -/
theorem lookupProp_append_other (l : List (PropT × Bool)) (p q : PropT) (v : Bool)
    (h : q ≠ p) : lookupProp p (l ++ [(q, v)]) = lookupProp p l := by
  induction l with
  | nil => simp [lookupProp, h]
  | cons kv t ih => by_cases hk : kv.1 = p <;> simp [lookupProp, hk, ih]

/-- Appending an entry for an absent key makes the lookup find it. -/
theorem lookupProp_append_self (l : List (PropT × Bool)) (p : PropT) (v : Bool)
    (h : lookupProp p l = none) : lookupProp p (l ++ [(p, v)]) = some v := by
  induction l with
  | nil => simp [lookupProp]
  | cons kv t ih =>
    by_cases hk : kv.1 = p
    · rw [lookupProp] at h; simp [hk] at h
    · rw [lookupProp] at h; simp only [hk, if_false] at h
      simpa [lookupProp, hk] using ih h

/-- Erasing a key removes it from lookups. -/
theorem lookupProp_eraseKey_self (l : List (PropT × Bool)) (p : PropT) :
    lookupProp p (eraseKey p l) = none := by
  induction l with
  | nil => rfl
  | cons kv t ih => by_cases hk : kv.1 = p <;> simp [eraseKey, lookupProp, hk, ih]

/-- Erasing a different key does not change a lookup. -/
theorem lookupProp_eraseKey_other (l : List (PropT × Bool)) (p q : PropT) (h : q ≠ p) :
    lookupProp p (eraseKey q l) = lookupProp p l := by
  induction l with
  | nil => rfl
  | cons kv t ih =>
    by_cases hk : kv.1 = q
    · have hp : ¬(kv.1 = p) := fun hc => h (hk.symm.trans hc)
      simp only [eraseKey, lookupProp]
      rw [if_pos hk, if_neg hp, ih]
    · simp only [eraseKey, lookupProp]
      rw [if_neg hk]
      by_cases hp : kv.1 = p
      · simp only [lookupProp]
        rw [if_pos hp, if_pos hp]
      · simp only [lookupProp]
        rw [if_neg hp, if_neg hp, ih]

/-- Unfolding valuesOf over a cons cell. -/
theorem valuesOf_cons (p : PropT) (kv : PropT × Bool) (t : List (PropT × Bool)) :
    valuesOf p (kv :: t) =
      if kv.1 = p then kv.2 :: valuesOf p t else valuesOf p t := by
  by_cases hk : kv.1 = p <;> simp [valuesOf, hk]

/-- A polarity supplied for a proposition appears in its trace. -/
theorem mem_valuesOf (l : List (PropT × Bool)) (p : PropT) (v : Bool)
    (h : (p, v) ∈ l) : v ∈ valuesOf p l := by
  induction l with
  | nil => simp at h
  | cons kv t ih =>
    rcases List.mem_cons.mp h with h1 | h1
    · subst h1
      rw [valuesOf_cons, if_pos rfl]
      exact List.mem_cons_self _ _
    · by_cases hk : kv.1 = p
      · rw [valuesOf_cons, if_pos hk]
        exact List.mem_cons_of_mem _ (ih h1)
      · rw [valuesOf_cons, if_neg hk]
        exact ih h1

/-- Localization of the constructor fold: the final dict entry of a fixed
    proposition is its automaton run over the polarities supplied for it,
    independent of the other propositions. -/
theorem foldl_insStep_lookup (l : List (PropT × Bool)) (d : List (PropT × Bool))
    (b : Bool) (p : PropT) :
    lookupProp p (l.foldl insStep (d, b)).1 = runState (lookupProp p d) (valuesOf p l) := by
  induction l generalizing d b with
  | nil => simp [runState, valuesOf]
  | cons kv t ih =>
    obtain ⟨q, w⟩ := kv
    rw [List.foldl_cons]
    by_cases hk : q = p
    · subst hk
      rcases hld : lookupProp q d with _ | u
      · rw [show insStep (d, b) (q, w) = (d ++ [(q, w)], b) by simp [insStep, hld]]
        rw [ih, lookupProp_append_self _ _ _ hld, valuesOf_cons]
        simp [runState, hld]
      · by_cases hw : u = w
        · rw [show insStep (d, b) (q, w) = (d, b) by simp [insStep, hld, hw]]
          rw [ih, valuesOf_cons]
          simp [runState, hld, hw]
        · rw [show insStep (d, b) (q, w) = (eraseKey q d, true) by simp [insStep, hld, hw]]
          rw [ih, lookupProp_eraseKey_self, valuesOf_cons]
          simp [runState, hld, hw]
    · have hv : valuesOf p ((q, w) :: t) = valuesOf p t := by
        rw [valuesOf_cons]; simp [hk]
      rcases hld : lookupProp q d with _ | u
      · rw [show insStep (d, b) (q, w) = (d ++ [(q, w)], b) by simp [insStep, hld]]
        rw [ih, lookupProp_append_other _ _ _ _ hk, hv]
      · by_cases hw : u = w
        · rw [show insStep (d, b) (q, w) = (d, b) by simp [insStep, hld, hw]]
          rw [ih, hv]
        · rw [show insStep (d, b) (q, w) = (eraseKey q d, true) by simp [insStep, hld, hw]]
          rw [ih, lookupProp_eraseKey_other _ _ _ hk, hv]

/-- The valid flag, once set, survives the rest of the constructor fold. -/
theorem foldl_insStep_valid_mono (l : List (PropT × Bool)) :
    ∀ d : List (PropT × Bool), (l.foldl insStep (d, true)).2 = true := by
  induction l with
  | nil => intro d; rfl
  | cons kv t ih =>
    intro d
    rw [List.foldl_cons]
    rcases hld : lookupProp kv.1 d with _ | u
    · rw [show insStep (d, true) kv = (d ++ [kv], true) by simp [insStep, hld]]
      exact ih _
    · by_cases hw : u = kv.2
      · rw [show insStep (d, true) kv = (d, true) by simp [insStep, hld, hw]]
        exact ih _
      · rw [show insStep (d, true) kv = (eraseKey kv.1 d, true) by simp [insStep, hld, hw]]
        exact ih _

/-- If the automaton of some proposition reports a conflict, the
    constructor flags the clause as valid. -/
theorem foldl_insStep_valid_of_conf (l : List (PropT × Bool)) (d : List (PropT × Bool))
    (b : Bool) (p : PropT) (h : runConf (lookupProp p d) (valuesOf p l) = true) :
    (l.foldl insStep (d, b)).2 = true := by
  induction l generalizing d b with
  | nil => simp [valuesOf, runConf] at h
  | cons kv t ih =>
    obtain ⟨q, w⟩ := kv
    rw [List.foldl_cons]
    by_cases hk : q = p
    · subst hk
      rcases hld : lookupProp q d with _ | u
      · rw [show insStep (d, b) (q, w) = (d ++ [(q, w)], b) by simp [insStep, hld]]
        refine ih _ _ ?_
        rw [lookupProp_append_self _ _ _ hld]
        rw [valuesOf_cons] at h
        simpa [runConf, hld] using h
      · by_cases hw : u = w
        · rw [show insStep (d, b) (q, w) = (d, b) by simp [insStep, hld, hw]]
          refine ih _ _ ?_
          rw [valuesOf_cons] at h
          rw [hld]
          simpa [runConf, hld, hw] using h
        · rw [show insStep (d, b) (q, w) = (eraseKey q d, true) by simp [insStep, hld, hw]]
          exact foldl_insStep_valid_mono t _
    · have hv : valuesOf p ((q, w) :: t) = valuesOf p t := by
        rw [valuesOf_cons]; simp [hk]
      rw [hv] at h
      rcases hld : lookupProp q d with _ | u
      · rw [show insStep (d, b) (q, w) = (d ++ [(q, w)], b) by simp [insStep, hld]]
        refine ih _ _ ?_
        rwa [lookupProp_append_other _ _ _ _ hk]
      · by_cases hw : u = w
        · rw [show insStep (d, b) (q, w) = (d, b) by simp [insStep, hld, hw]]
          exact ih _ _ h
        · rw [show insStep (d, b) (q, w) = (eraseKey q d, true) by simp [insStep, hld, hw]]
          exact foldl_insStep_valid_mono t _

/-- If the automaton of one proposition never reports a conflict over a
    trace starting from a stored polarity, every polarity in the trace
    equals the stored one (a conflict-free run never resets). -/
theorem runConf_all_eq (t : List Bool) (w : Bool) (h : runConf (some w) t = false) :
    ∀ v ∈ t, v = w := by
  induction t with
  | nil => intro v hv; exact absurd hv (List.not_mem_nil v)
  | cons a t ih =>
    by_cases hw : w = a
    · rw [show runConf (some w) (a :: t) = runConf (some w) t from by
        simp [runConf, hw]] at h
      intro v hv
      rcases List.mem_cons.mp hv with h3 | h3
      · rw [h3, ← hw]
      · exact ih h v h3
    · rw [show runConf (some w) (a :: t) = true from by simp [runConf, hw]] at h
      exact absurd h (by simp)

/-- A trace containing both polarities always drives the automaton into a
    conflict: as long as no conflict fires, the stored polarity never
    changes, so all supplied polarities would be equal. -/
theorem runConf_of_both (vs : List Bool) (hT : true ∈ vs) (hF : false ∈ vs) :
    runConf none vs = true := by
  cases vs with
  | nil => exact absurd hT (List.not_mem_nil _)
  | cons a t =>
    rw [show runConf none (a :: t) = runConf (some a) t from by simp [runConf]]
    cases hb : runConf (some a) t with
    | true => rfl
    | false =>
      exfalso
      have hall := runConf_all_eq t a hb
      rcases Bool.eq_false_or_eq_true a with ha | ha
      · rcases List.mem_cons.mp hF with h1 | h1
        · rw [ha] at h1; exact absurd h1 (by simp)
        · have h2 := hall false h1; rw [ha] at h2; exact absurd h2 (by simp)
      · rcases List.mem_cons.mp hT with h1 | h1
        · rw [ha] at h1; exact absurd h1 (by simp)
        · have h2 := hall true h1; rw [ha] at h2; exact absurd h2 (by simp)

/-- C6 (amended): if some proposition is supplied with both polarities,
    the constructed clause is flagged as a tautology - for EVERY such
    input, however often the proposition is supplied; and when that
    proposition is supplied exactly twice, it additionally has no
    occurrence in the constructed clause.  (The unrestricted no-occurrence
    conjunct fails when the proposition is supplied again after its
    conflict; see the counterexample.) -/
theorem construct_conflict_tautology (l : List (PropT × Bool)) (p : PropT)
    (hT : (p, true) ∈ l) (hF : (p, false) ∈ l) :
    (mkMazeClause l).valid = true ∧
    ((valuesOf p l).length = 2 → (mkMazeClause l).get_prop p = none) := by
  have hmemT := mem_valuesOf l p true hT
  have hmemF := mem_valuesOf l p false hF
  constructor
  · show (l.foldl insStep ([], false)).2 = true
    exact foldl_insStep_valid_of_conf l [] false p (runConf_of_both _ hmemT hmemF)
  · intro h2
    have hvals : valuesOf p l = [true, false] ∨ valuesOf p l = [false, true] := by
      rcases List.length_eq_two.mp h2 with ⟨a, c, hac⟩
      rw [hac] at hmemT hmemF ⊢
      rcases a <;> rcases c <;> simp_all
    show lookupProp p (l.foldl insStep ([], false)).1 = none
    rw [foldl_insStep_lookup]
    rcases hvals with hv | hv <;> rw [hv] <;> rfl

/-- Witness for C6: the amended theorem applied to the input supplying
    Pit(0,0) as true then false. -/
theorem construct_conflict_tautology_witness :
    ((pA, true) ∈ ([(pA, true), (pA, false)] : List (PropT × Bool)) ∧
      (pA, false) ∈ ([(pA, true), (pA, false)] : List (PropT × Bool))) ∧
    ((mkMazeClause [(pA, true), (pA, false)]).valid = true ∧
      ((valuesOf pA [(pA, true), (pA, false)]).length = 2 →
        (mkMazeClause [(pA, true), (pA, false)]).get_prop pA = none)) :=
  ⟨⟨by decide, by decide⟩,
    construct_conflict_tautology [(pA, true), (pA, false)] pA (by decide) (by decide)⟩

/-- Mono is reflexive. -/
theorem mono_refl (s : AgentState) : Mono s s :=
  ⟨List.Subset.refl _, List.Subset.refl _⟩

/-- Mono is transitive. -/
theorem mono_trans {a b c : AgentState} (h1 : Mono a b) (h2 : Mono b c) : Mono a c :=
  ⟨List.Subset.trans h1.1 h2.1, List.Subset.trans h1.2 h2.2⟩

/-- Adding a location to a location set only grows it. -/
theorem subset_insertLoc (l : List Loc) (x : Loc) : l ⊆ insertLoc l x := by
  unfold insertLoc
  split
  · exact List.Subset.refl _
  · exact List.subset_append_left _ _

/-- The added location is a member afterwards. -/
theorem mem_insertLoc_self (l : List Loc) (x : Loc) : x ∈ insertLoc l x := by
  unfold insertLoc
  split
  · assumption
  · exact List.mem_append_right _ (List.mem_singleton_self x)

/-- Marking a pit only grows the confirmed sets. -/
theorem mono_markPit (s : AgentState) (t : Loc) : Mono s (markPit s t) :=
  ⟨List.Subset.refl _, subset_insertLoc _ _⟩

/-- A fold of steps that each only grow the confirmed sets only grows
    them. -/
theorem mono_foldl {α : Type} (f : AgentState → α → AgentState)
    (hf : ∀ st x, Mono st (f st x)) :
    ∀ (l : List α) (st : AgentState), Mono st (l.foldl f st)
  | [], st => mono_refl st
  | x :: t, st => by
    rw [List.foldl_cons]
    exact mono_trans (hf st x) (mono_foldl f hf t (f st x))

/-- is_safe_tile only grows the confirmed sets. -/
theorem mono_is_safe_tile (s : AgentState) (loc : Loc) (b1 b2 : Nat) :
    Mono s (is_safe_tile s loc b1 b2).state := by
  unfold is_safe_tile
  by_cases hs : loc ∈ s.safe_tiles
  · rw [if_pos hs]; exact mono_refl s
  · rw [if_neg hs]
    by_cases hp : loc ∈ s.pit_tiles
    · rw [if_pos hp]; exact mono_refl s
    · rw [if_neg hp]
      dsimp only
      rcases ask (simplifySelf s).kb (noPitClause loc) b1 with _ | b
      · exact ⟨List.Subset.refl _, List.Subset.refl _⟩
      · rcases b
        · rcases ask (simplifySelf s).kb (pitClause loc) b2 with _ | b'
          · exact ⟨List.Subset.refl _, List.Subset.refl _⟩
          · rcases b'
            · exact ⟨List.Subset.refl _, List.Subset.refl _⟩
            · exact ⟨List.Subset.refl _, subset_insertLoc _ _⟩
        · exact ⟨subset_insertLoc _ _, List.Subset.refl _⟩

/-- The safe-dropping loop of infer_adjacent_pits only grows the confirmed
    sets. -/
theorem mono_dropSafeTiles :
    ∀ (l : List Loc) (s : AgentState) (bs : List (Nat × Nat)),
      Mono s (dropSafeTiles s bs l).1
  | [], s, bs => mono_refl s
  | t :: rest, s, bs => by
    unfold dropSafeTiles
    dsimp only
    have hrec := mono_dropSafeTiles rest (is_safe_tile s t (bs.headD (0, 0)).1
      (bs.headD (0, 0)).2).state bs.tail
    have hall := mono_trans (mono_is_safe_tile s t _ _) hrec
    split
    · exact hall
    · exact hall

/-- The one-removal loop of infer_adjacent_pits only grows the confirmed
    sets. -/
theorem mono_removeOneSafe :
    ∀ (l : List Loc) (s : AgentState) (bs : List (Nat × Nat)),
      Mono s (removeOneSafe s bs l).1
  | [], s, bs => mono_refl s
  | t :: rest, s, bs => by
    unfold removeOneSafe
    dsimp only
    split
    · exact mono_is_safe_tile s t _ _
    · exact mono_trans (mono_is_safe_tile s t _ _)
        (mono_removeOneSafe rest (is_safe_tile s t (bs.headD (0, 0)).1
          (bs.headD (0, 0)).2).state bs.tail)

/-- The selection loop of find_best_next_move only grows the confirmed
    sets. -/
theorem mono_selectLoop :
    ∀ (l : List HeapEntry) (s : AgentState) (bs : List (Nat × Nat)),
      Mono s (selectLoop s bs l).2.1
  | [], s, bs => mono_refl s
  | e :: rest, s, bs => by
    unfold selectLoop
    dsimp only
    split
    · exact mono_is_safe_tile s e.2 _ _
    · exact mono_trans (mono_is_safe_tile s e.2 _ _)
        (mono_selectLoop rest (is_safe_tile s e.2 (bs.headD (0, 0)).1
          (bs.headD (0, 0)).2).state bs.tail)

/-- infer_adjacent_pits only grows the confirmed sets. -/
theorem mono_infer_adjacent_pits (s : AgentState) (adjacent : List Loc) (k : Nat)
    (bs : List (Nat × Nat)) : Mono s (infer_adjacent_pits s adjacent k bs).1 := by
  unfold infer_adjacent_pits
  dsimp only
  have hd := mono_dropSafeTiles adjacent s bs
  split
  · exact mono_trans hd (mono_foldl markPit mono_markPit _ _)
  · split
    · split
      · exact mono_trans hd (mono_trans (mono_removeOneSafe adjacent _ _)
          ⟨List.Subset.refl _, List.Subset.refl _⟩)
      · exact mono_trans hd (mono_removeOneSafe adjacent _ _)
    · split
      · exact mono_trans hd ⟨List.Subset.refl _, List.Subset.refl _⟩
      · exact hd

/-- on_warning_tile only grows the confirmed sets. -/
theorem mono_on_warning_tile (s : AgentState) (tile : Tile) (adjacent : List Loc)
    (bs : List (Nat × Nat)) : Mono s (on_warning_tile s tile adjacent bs).1 := by
  unfold on_warning_tile
  rcases tile
  · exact mono_refl s
  · exact mono_refl s
  · exact mono_infer_adjacent_pits s adjacent 1 bs
  · exact mono_infer_adjacent_pits s adjacent 2 bs
  · refine mono_foldl _ ?_ adjacent s
    intro st t
    dsimp only
    split
    · exact mono_refl st
    · exact mono_markPit st t
  · exact mono_foldl markPit mono_markPit adjacent s
  · exact mono_refl s

/-- find_best_next_move only grows the confirmed sets. -/
theorem mono_find_best_next_move (s : AgentState) (moves : List Loc) (cur : Loc)
    (bs : List (Nat × Nat)) : Mono s (find_best_next_move s moves cur bs).2.1 := by
  unfold find_best_next_move
  split
  · exact mono_refl s
  · dsimp only
    split
    · exact mono_selectLoop _ s bs
    · exact mono_selectLoop _ s bs

/-- A think step only grows the confirmed sets. -/
theorem mono_think (s : AgentState) (loc : Loc) (tile : Tile)
    (adjacent frontier : List Loc) (bs : List (Nat × Nat)) :
    Mono s (think s loc tile adjacent frontier bs).2 := by
  unfold think
  dsimp only
  refine mono_trans ?_ (mono_find_best_next_move _ frontier loc _)
  split
  · refine mono_trans ?_ (mono_on_warning_tile _ tile adjacent bs)
    split
    · refine mono_trans ?_ (mono_foldl (fun st n => { st with safe_tiles := insertLoc st.safe_tiles n, kb := tell st.kb (noPitClause n) }) (fun st n => ⟨subset_insertLoc _ _, List.Subset.refl _⟩) adjacent _)
      exact ⟨List.Subset.refl _, List.Subset.refl _⟩
    · exact ⟨List.Subset.refl _, List.Subset.refl _⟩
  · dsimp only
    split
    · refine mono_trans ?_ (mono_foldl (fun st n => { st with safe_tiles := insertLoc st.safe_tiles n, kb := tell st.kb (noPitClause n) }) (fun st n => ⟨subset_insertLoc _ _, List.Subset.refl _⟩) adjacent _)
      exact ⟨List.Subset.refl _, List.Subset.refl _⟩
    · exact ⟨List.Subset.refl _, List.Subset.refl _⟩

/-- A single agent step only grows the confirmed sets. -/
theorem mono_agentStep {s s2 : AgentState} (h : AgentStep s s2) : Mono s s2 := by
  cases h with
  | think_step loc tile adjacent frontier bs =>
      exact mono_think _ loc tile adjacent frontier bs
  | classify_step loc b1 b2 => exact mono_is_safe_tile _ loc b1 b2

/-- C7 (amended): along every chain of construction-reachable agent steps
    the confirmed-safe and confirmed-hazard location sets only ever grow.
    (The pairwise-disjointness part of the claim fails: see the
    counterexample, where a suspected location later confirmed safe is
    never removed from the suspected-hazard set.) -/
theorem agent_confirmed_sets_monotone (s s2 : AgentState)
    (h : Relation.ReflTransGen AgentStep s s2) :
    s.safe_tiles ⊆ s2.safe_tiles ∧ s.pit_tiles ⊆ s2.pit_tiles := by
  induction h with
  | refl => exact mono_refl s
  | tail hchain hstep ih => exact mono_trans ih (mono_agentStep hstep)

/-- Witness for C7: the monotonicity theorem applied to the concrete
    two-step chain from the constructed agent. -/
theorem agent_confirmed_sets_monotone_witness :
    c7s0.safe_tiles ⊆ c7s2.safe_tiles ∧ c7s0.pit_tiles ⊆ c7s2.pit_tiles :=
  agent_confirmed_sets_monotone c7s0 c7s2
    (Relation.ReflTransGen.tail
      (Relation.ReflTransGen.tail Relation.ReflTransGen.refl
        (AgentStep.classify_step c7s0 (3, 3) 1 1 : AgentStep c7s0 c7s1))
      (AgentStep.think_step c7s1 (3, 2) Tile.safe [(3, 3)] [(5, 5)] [] :
        AgentStep c7s1 c7s2))

/-- The hazard query and the hazard-free query for a location differ. -/
theorem pitClause_ne_noPitClause (loc : Loc) : pitClause loc ≠ noPitClause loc := by
  intro h
  have h2 := congrArg (fun c => c.props) h
  simp only [pitClause, noPitClause, mkMazeClause, List.foldl_cons, List.foldl_nil,
    insStep, lookupProp] at h2
  exact absurd (List.cons.inj h2).1 (by simp)

/-- C9 (amended): for a location not already confirmed, is_safe_tile first
    runs the simplify pass and issues the hazard-free query against the
    simplified knowledge base; the second (hazard) query is issued exactly
    when the first query completes with false - NOT on a timeout of the
    first, which instead records the location as a suspected pit and
    returns unknown; a timeout is thus handled as the answer unknown,
    never as an error. -/
theorem is_safe_tile_query_policy (s : AgentState) (loc : Loc) (b1 b2 : Nat)
    (h1 : loc ∉ s.safe_tiles) (h2 : loc ∉ s.pit_tiles) :
    ((is_safe_tile s loc b1 b2).asked.head? = some (noPitClause loc)) ∧
    (pitClause loc ∈ (is_safe_tile s loc b1 b2).asked ↔
      ask (simplifySelf s).kb (noPitClause loc) b1 = some false) ∧
    (ask (simplifySelf s).kb (noPitClause loc) b1 = none →
      (is_safe_tile s loc b1 b2).result = none ∧
      loc ∈ (is_safe_tile s loc b1 b2).state.possible_pits ∧
      (is_safe_tile s loc b1 b2).asked = [noPitClause loc]) := by
  unfold is_safe_tile
  rw [if_neg h1, if_neg h2]
  dsimp only
  rcases h3 : ask (simplifySelf s).kb (noPitClause loc) b1 with _ | b
  case none => simp [h3, pitClause_ne_noPitClause loc, mem_insertLoc_self]
  case some =>
    rcases b
    case false =>
      rcases h4 : ask (simplifySelf s).kb (pitClause loc) b2 with _ | b'
      case none => simp [h3, h4, pitClause_ne_noPitClause loc, mem_insertLoc_self]
      case some =>
        rcases b' <;> simp [h3, h4, pitClause_ne_noPitClause loc, mem_insertLoc_self]
    case true => simp [h3, pitClause_ne_noPitClause loc, mem_insertLoc_self]

/-- Witness for C9: the policy theorem applied to the empty-knowledge
    agent at location (3, 3) with ask budgets 1 and 1. -/
theorem is_safe_tile_query_policy_witness :
    ((3, 3) ∉ c9state.safe_tiles ∧ (3, 3) ∉ c9state.pit_tiles) ∧
    (((is_safe_tile c9state (3, 3) 1 1).asked.head? = some (noPitClause (3, 3))) ∧
      (pitClause (3, 3) ∈ (is_safe_tile c9state (3, 3) 1 1).asked ↔
        ask (simplifySelf c9state).kb (noPitClause (3, 3)) 1 = some false) ∧
      (ask (simplifySelf c9state).kb (noPitClause (3, 3)) 1 = none →
        (is_safe_tile c9state (3, 3) 1 1).result = none ∧
        (3, 3) ∈ (is_safe_tile c9state (3, 3) 1 1).state.possible_pits ∧
        (is_safe_tile c9state (3, 3) 1 1).asked = [noPitClause (3, 3)])) :=
  ⟨⟨by decide, by decide⟩,
    is_safe_tile_query_policy c9state (3, 3) 1 1 (by decide) (by decide)⟩
